import Mathlib

/-!
Shallow embedding of `src/main.rs` of the cubic-spline repository.

`f64` values are modelled as exact rationals (`ℚ`), so that every
definition is executable and every arithmetic fact is exact.  The one
piece of behaviour that lives outside the repository is the call
`array.solve(&b)` (LAPACK, via `ndarray_linalg`): it is modelled
relationally, as an arbitrary vector `x` satisfying every assembled
constraint, and the theorems about `polyline`'s output are stated for
every such `x`.
-/

set_option autoImplicit false

namespace CubicSpline

/-- The struct `Poly { a, b, c, d }` from `main.rs`: the four
coefficients of a segment polynomial. -/
structure Poly where
  a : ℚ
  b : ℚ
  c : ℚ
  d : ℚ
deriving DecidableEq, Repr

/-- `Poly::get`: `self.a + self.b * t + self.c * t * t + self.d * t * t * t`
(the value part; the `assert!(0. <= t && t <= 1.)` is modelled by
`Poly.getChecked`). -/
def Poly.get (p : Poly) (t : ℚ) : ℚ :=
  p.a + p.b * t + p.c * t * t + p.d * t * t * t

/-- `Poly::deriv`, exactly as written in the source:
`self.b + 2. * self.c * t + 3. * self.d + t * t`.
Note the source adds `3. * self.d` and `t * t` as separate summands. -/
def Poly.deriv (p : Poly) (t : ℚ) : ℚ :=
  p.b + 2 * p.c * t + 3 * p.d + t * t

/-- `Poly::deriv2`, exactly as written in the source:
`2. * self.c + 6. * self.d + t`. -/
def Poly.deriv2 (p : Poly) (t : ℚ) : ℚ :=
  2 * p.c + 6 * p.d + t

/-- `Poly::deriv3`: `6. * self.d`. -/
def Poly.deriv3 (p : Poly) : ℚ :=
  6 * p.d

/-- `Poly::get` with its `assert!(0. <= t && t <= 1.)`: `none` models the
fatal assertion failure. -/
def Poly.getChecked (p : Poly) (t : ℚ) : Option ℚ :=
  if 0 ≤ t ∧ t ≤ 1 then some (p.get t) else none

/-- `Poly::deriv` with its assertion. -/
def Poly.derivChecked (p : Poly) (t : ℚ) : Option ℚ :=
  if 0 ≤ t ∧ t ≤ 1 then some (p.deriv t) else none

/-- `Poly::deriv2` with its assertion. -/
def Poly.deriv2Checked (p : Poly) (t : ℚ) : Option ℚ :=
  if 0 ≤ t ∧ t ≤ 1 then some (p.deriv2 t) else none

/-- The first derivative of the cubic `a + b·t + c·t² + d·t³` as the spec
states it: `b + 2·c·t + 3·d·t²`.  Written from the spec's words, to be
compared with the source's `Poly.deriv`. -/
def Poly.derivSpec (p : Poly) (t : ℚ) : ℚ :=
  p.b + 2 * p.c * t + 3 * p.d * t * t

/-- The second derivative as the spec states it: `2·c + 6·d·t`.  Written
from the spec's words, to be compared with the source's `Poly.deriv2`. -/
def Poly.deriv2Spec (p : Poly) (t : ℚ) : ℚ :=
  2 * p.c + 6 * p.d * t

/-- The struct `Var { line, coe }` local to `polyline`: unknown number
`coe` (0..3) of segment `line`. -/
structure Var where
  line : ℕ
  coe : ℕ
deriving DecidableEq, Repr

/-- The struct `Constraint { sum, eq }` local to `polyline`: a linear
equation `Σ m·x[var] = eq`. -/
structure Constraint where
  sum : List (ℚ × Var)
  eq : ℚ
deriving DecidableEq, Repr

/-- The column index `line * 4 + coe` a `Var` is scattered to when the
matrix is assembled. -/
def Var.idx (v : Var) : ℕ :=
  v.line * 4 + v.coe

/-- The constraint `C[i](0) = P[i]` pushed for segment `i`. -/
def val0Constraint (points : List ℚ) (i : ℕ) : Constraint :=
  ⟨[(1, ⟨i, 0⟩)], points.getD i 0⟩

/-- The constraint `C[i](1) = P[i+1]` pushed for segment `i`. -/
def val1Constraint (points : List ℚ) (i : ℕ) : Constraint :=
  ⟨[(1, ⟨i, 0⟩), (1, ⟨i, 1⟩), (1, ⟨i, 2⟩), (1, ⟨i, 3⟩)], points.getD (i + 1) 0⟩

/-- The constraint `C[i]'(1) = C[i+1]'(0)` pushed for interior joint `i`. -/
def d1Constraint (i : ℕ) : Constraint :=
  ⟨[(1, ⟨i, 1⟩), (2, ⟨i, 2⟩), (3, ⟨i, 3⟩), (-1, ⟨i + 1, 1⟩)], 0⟩

/-- The constraint `C[i]''(1) = C[i+1]''(0)` pushed for interior joint `i`. -/
def d2Constraint (i : ℕ) : Constraint :=
  ⟨[(2, ⟨i, 2⟩), (6, ⟨i, 3⟩), (-2, ⟨i + 1, 2⟩)], 0⟩

/-- The two constraints pushed for segment `i` by the first loop of
`polyline` (`C[i](0) = P[i]`, then `C[i](1) = P[i+1]`). -/
def pointConstraints (points : List ℚ) (i : ℕ) : List Constraint :=
  [val0Constraint points i, val1Constraint points i]

/-- The two constraints pushed for interior joint `i` by the second loop
of `polyline` (`C[i]'(1) = C[i+1]'(0)`, then `C[i]''(1) = C[i+1]''(0)`). -/
def contConstraints (i : ℕ) : List Constraint :=
  [d1Constraint i, d2Constraint i]

/-- The two end-condition constraints pushed last by `polyline`
(`C[0]'(0) = 0`, then `C[lines-1]'(1) = 0`). -/
def endConstraints (lines : ℕ) : List Constraint :=
  [⟨[(1, ⟨0, 1⟩)], 0⟩,
   ⟨[(1, ⟨lines - 1, 1⟩), (2, ⟨lines - 1, 2⟩), (3, ⟨lines - 1, 3⟩)], 0⟩]

/-- The full constraint vector built by `polyline` for `points`, in the
exact push order of the source: the point loop, the continuity loop,
then the two end conditions. -/
def mkConstraints (points : List ℚ) : List Constraint :=
  (List.range (points.length - 1)).flatMap (pointConstraints points) ++
    (List.range (points.length - 1 - 1)).flatMap contConstraints ++
    endConstraints (points.length - 1)

/-- The constraint order the spec describes, written from the spec's
words: first all value-at-`t=0` equations, then all value-at-`t=1`
equations, then all first-derivative continuity equations, then all
second-derivative continuity equations, then the two end conditions.
To be compared with `mkConstraints`, the order of the source. -/
def specOrderConstraints (points : List ℚ) : List Constraint :=
  (List.range (points.length - 1)).map (val0Constraint points) ++
    (List.range (points.length - 1)).map (val1Constraint points) ++
    (List.range (points.length - 1 - 1)).map d1Constraint ++
    (List.range (points.length - 1 - 1)).map d2Constraint ++
    endConstraints (points.length - 1)

/-- A constraint holds of a solution vector `x` when the scattered row
dotted with `x` equals its right-hand side. -/
def Constraint.holds (x : ℕ → ℚ) (c : Constraint) : Prop :=
  (c.sum.map fun p => p.1 * x p.2.idx).sum = c.eq

instance (x : ℕ → ℚ) (c : Constraint) : Decidable (c.holds x) := by
  unfold Constraint.holds; infer_instance

/-- `x` models the result of `array.solve(&b).unwrap()`: an exact
solution of every assembled constraint. -/
def SolvesSystem (points : List ℚ) (x : ℕ → ℚ) : Prop :=
  ∀ c ∈ mkConstraints points, c.holds x

instance (points : List ℚ) (x : ℕ → ℚ) : Decidable (SolvesSystem points x) := by
  unfold SolvesSystem; infer_instance

/-- `polyline`, with the external linear solve modelled by the solution
vector `x`: the `points.len() < 2` early return, then one `Poly` read
from `x[4i .. 4i+3]` per segment. -/
def polyline (points : List ℚ) (x : ℕ → ℚ) : List Poly :=
  if points.length < 2 then []
  else (List.range (points.length - 1)).map fun i =>
    ⟨x (4 * i), x (4 * i + 1), x (4 * i + 2), x (4 * i + 3)⟩

/-- `samples`: early return when `lines` is empty (before `out.clear()`),
otherwise clear `out` and push 100 sample points per segment pair at
`t = i / 99`.  `FPoint` is modelled as a pair of rationals. -/
def samples (lines : List (Poly × Poly)) (out : List (ℚ × ℚ)) : List (ℚ × ℚ) :=
  if lines = [] then out
  else lines.flatMap fun l =>
    (List.range 100).map fun i : ℕ =>
      (l.1.get ((i : ℚ) / 99), l.2.get ((i : ℚ) / 99))

/-- The zero polynomial, used as a `getD` default. -/
def polyZero : Poly :=
  ⟨0, 0, 0, 0⟩

/-- An empty constraint, used as a `getD` default. -/
def cZero : Constraint :=
  ⟨[], 0⟩

section Helpers

variable {α β : Type}

lemma length_flatMap_const (f : α → List β) (k : ℕ)
    (hf : ∀ a, (f a).length = k) (l : List α) :
    (l.flatMap f).length = k * l.length := by
  induction l with
  | nil => simp
  | cons a l ih =>
    simp only [List.flatMap_cons, List.length_append, hf a, ih, List.length_cons]
    ring

lemma flatMap_getD_block (f : α → List β) (k : ℕ) (d : β) (e : α)
    (hf : ∀ a, (f a).length = k) :
    ∀ (l : List α) (s i : ℕ), s < l.length → i < k →
      (l.flatMap f).getD (k * s + i) d = (f (l.getD s e)).getD i d := by
  intro l
  induction l with
  | nil => intro s i hs _; simp at hs
  | cons a l ih =>
    intro s i hs hi
    cases s with
    | zero =>
      simp only [List.flatMap_cons, Nat.mul_zero, Nat.zero_add, List.getD_cons_zero]
      exact List.getD_append _ _ _ _ (by rw [hf]; exact hi)
    | succ s =>
      have hk : k * (s + 1) + i = (f a).length + (k * s + i) := by rw [hf]; ring
      simp only [List.flatMap_cons, List.getD_cons_succ]
      rw [hk, List.getD_append_right _ _ _ _ (Nat.le_add_right _ _),
        Nat.add_sub_cancel_left]
      exact ih s i (Nat.lt_of_succ_lt_succ hs) hi

lemma getD_map_range (g : ℕ → β) (n i : ℕ) (hi : i < n) (d : β) :
    ((List.range n).map g).getD i d = g i := by
  rw [List.getD_eq_getElem _ _ (by simpa using hi), List.getElem_map,
    List.getElem_range]

lemma flatMap_range_getD (f : ℕ → List β) (k : ℕ) (d : β)
    (hf : ∀ j, (f j).length = k) (n s i : ℕ) (hs : s < n) (hi : i < k) :
    ((List.range n).flatMap f).getD (k * s + i) d = (f s).getD i d := by
  have h := flatMap_getD_block f k d 0 hf (List.range n) s i (by simpa using hs) hi
  have hr : (List.range n).getD s 0 = s := by
    rw [List.getD_eq_getElem _ _ (by simpa using hs), List.getElem_range]
  rw [hr] at h
  exact h

lemma mkConstraints_length (points : List ℚ) (h : 2 ≤ points.length) :
    (mkConstraints points).length = 4 * (points.length - 1) := by
  unfold mkConstraints
  rw [List.length_append, List.length_append,
    length_flatMap_const (pointConstraints points) 2 (fun _ => rfl),
    length_flatMap_const contConstraints 2 (fun _ => rfl)]
  simp only [endConstraints, List.length_cons, List.length_nil, List.length_range]
  omega

end Helpers

lemma not_unit_interval_iff (t : ℚ) : ¬(0 ≤ t ∧ t ≤ 1) ↔ t < 0 ∨ 1 < t := by
  rw [not_and_or, not_le, not_le]

/-- C2: the claim says `deriv t = b + 2·c·t + 3·d·t²` and
`deriv2 t = 2·c + 6·d·t`.  The source instead computes
`b + 2·c·t + 3·d + t·t` and `2·c + 6·d + t` (a `+` where a `*` belongs),
so at `c = 1, t = 1` the source's `deriv` returns `3` where the claimed
first derivative is `2`, and at `d = 1, t = 1` the source's `deriv2`
returns `7` where the claimed second derivative is `6`. -/
theorem deriv_formula_bug :
    (Poly.mk 0 0 1 0).deriv 1 = 3 ∧ Poly.derivSpec (Poly.mk 0 0 1 0) 1 = 2 ∧
    (Poly.mk 0 0 1 0).deriv 1 ≠ Poly.derivSpec (Poly.mk 0 0 1 0) 1 ∧
    (Poly.mk 0 0 0 1).deriv2 1 = 7 ∧ Poly.deriv2Spec (Poly.mk 0 0 0 1) 1 = 6 ∧
    (Poly.mk 0 0 0 1).deriv2 1 ≠ Poly.deriv2Spec (Poly.mk 0 0 0 1) 1 := by
  norm_num [Poly.deriv, Poly.derivSpec, Poly.deriv2, Poly.deriv2Spec]

/-- C3: the claim says the solved segments satisfy `deriv`/`deriv2`
continuity at interior joints.  On `points = [0,0,0]` the zero vector
solves the assembled system exactly, both returned polynomials are the
zero polynomial, yet the source's `deriv` (resp. `deriv2`) of segment 0
at `t = 1` is `1` while that of segment 1 at `t = 0` is `0`: the extra
`+ t·t` (resp. `+ t`) term of the mistyped derivative formulas breaks
the claimed equality even though the assembled continuity constraints
hold. -/
theorem joint_continuity_violated_at_zero_spline :
    SolvesSystem [0, 0, 0] (fun _ => 0) ∧
    ((polyline [0, 0, 0] (fun _ => 0)).getD 0 polyZero).deriv 1 = 1 ∧
    ((polyline [0, 0, 0] (fun _ => 0)).getD 1 polyZero).deriv 0 = 0 ∧
    ((polyline [0, 0, 0] (fun _ => 0)).getD 0 polyZero).deriv2 1 = 1 ∧
    ((polyline [0, 0, 0] (fun _ => 0)).getD 1 polyZero).deriv2 0 = 0 := by
  refine ⟨fun c hc => ?_, ?_, ?_, ?_, ?_⟩
  · fin_cases hc <;>
      norm_num [Constraint.holds, Var.idx, val0Constraint, val1Constraint,
        d1Constraint, d2Constraint]
  all_goals
    rw [show polyline [0, 0, 0] (fun _ => 0) = [polyZero, polyZero] from rfl]
    norm_num [Poly.deriv, Poly.deriv2, polyZero]

/-- C4 counterexample: calling `samples` with an empty segment list does
not leave the output vector empty: the early return fires before
`out.clear()`, so prior contents survive. -/
theorem samples_empty_input_stale_output :
    samples [] [((1 : ℚ), (2 : ℚ))] ≠ [] := by
  rw [show samples [] [((1 : ℚ), (2 : ℚ))] = [(1, 2)] from rfl]
  simp

/-- C4 amended: `samples` with an empty segment list returns immediately
and leaves the output vector unchanged (stale contents remain); for a
non-empty segment list the output is fully replaced, independent of the
prior contents. -/
theorem samples_output_replacement :
    (∀ out : List (ℚ × ℚ), samples [] out = out) ∧
    ∀ (l : List (Poly × Poly)) (out out' : List (ℚ × ℚ)),
      l ≠ [] → samples l out = samples l out' := by
  constructor
  · intro out
    simp [samples]
  · intro l out out' h
    simp [samples, h]

/-- Witness for C4's amended theorem at concrete inputs. -/
theorem samples_output_replacement_witness :
    samples [] [((1 : ℚ), (2 : ℚ))] = [((1 : ℚ), (2 : ℚ))] ∧
    ([(polyZero, polyZero)] : List (Poly × Poly)) ≠ [] ∧
    samples [(polyZero, polyZero)] [((1 : ℚ), (2 : ℚ))] =
      samples [(polyZero, polyZero)] [] :=
  ⟨samples_output_replacement.1 _, by simp,
   samples_output_replacement.2 _ _ _ (by simp)⟩

/-- C5: `polyline` returns the empty sequence (not an error) when fewer
than two points are given, and exactly `length - 1` polynomials
otherwise, for every solution vector of the assembled system. -/
theorem polyline_count (points : List ℚ) (x : ℕ → ℚ) :
    (points.length < 2 → polyline points x = []) ∧
    (2 ≤ points.length → (polyline points x).length = points.length - 1) := by
  constructor
  · intro h
    simp [polyline, h]
  · intro h
    rw [polyline, if_neg (by omega)]
    simp

/-- Witness for C5 at concrete inputs. -/
theorem polyline_count_witness :
    (([(0 : ℚ)] : List ℚ).length < 2 ∧ polyline [(0 : ℚ)] (fun _ => 0) = []) ∧
    (2 ≤ ([0, 0] : List ℚ).length ∧
      (polyline [0, 0] (fun _ => (0 : ℚ))).length = ([0, 0] : List ℚ).length - 1) :=
  ⟨⟨by simp, (polyline_count [(0 : ℚ)] (fun _ => 0)).1 (by simp)⟩,
   ⟨by simp, (polyline_count [0, 0] (fun _ => (0 : ℚ))).2 (by simp)⟩⟩

/-- C9: each of `get`, `deriv`, `deriv2` hits its fatal assertion
(modelled as `none`) exactly when `t` lies outside `[0, 1]`, and returns
normally (`isSome`) exactly when `0 ≤ t ≤ 1`. -/
theorem eval_assert_iff (p : Poly) (t : ℚ) :
    (p.getChecked t = none ↔ t < 0 ∨ 1 < t) ∧
    ((p.getChecked t).isSome ↔ 0 ≤ t ∧ t ≤ 1) ∧
    (p.derivChecked t = none ↔ t < 0 ∨ 1 < t) ∧
    ((p.derivChecked t).isSome ↔ 0 ≤ t ∧ t ≤ 1) ∧
    (p.deriv2Checked t = none ↔ t < 0 ∨ 1 < t) ∧
    ((p.deriv2Checked t).isSome ↔ 0 ≤ t ∧ t ≤ 1) := by
  by_cases h : 0 ≤ t ∧ t ≤ 1
  · have hb : ¬(t < 0 ∨ 1 < t) := by
      rw [← not_unit_interval_iff]
      exact not_not_intro h
    simp [Poly.getChecked, Poly.derivChecked, Poly.deriv2Checked, h, hb]
  · have hb : t < 0 ∨ 1 < t := (not_unit_interval_iff t).mp h
    simp [Poly.getChecked, Poly.derivChecked, Poly.deriv2Checked, h, hb]

/-- C8: for at least two points, the number of assembled constraints
equals the number of unknowns `4 * (length - 1)` exactly, so the matrix
is square and the source's `assert_eq!(constraints.len(), vars)` never
fails. -/
theorem constraints_square (points : List ℚ) (h : 2 ≤ points.length) :
    (mkConstraints points).length = 4 * (points.length - 1) :=
  mkConstraints_length points h

/-- Witness for C8 at a concrete input. -/
theorem constraints_square_witness :
    2 ≤ ([0, 0] : List ℚ).length ∧
    (mkConstraints [0, 0]).length = 4 * (([0, 0] : List ℚ).length - 1) :=
  ⟨by simp, constraints_square [0, 0] (by simp)⟩

/-- C10: every access `polyline` performs is in bounds: `points[i]` and
`points[i+1]` are only read for `i < length - 1`; every scattered matrix
entry has column `line * 4 + coe` below `vars = 4 * (length - 1)` and
there are exactly `vars` rows; and the solution vector is only read at
indices `4*i .. 4*i+3 < vars`. -/
theorem polyline_in_bounds (points : List ℚ) (h : 2 ≤ points.length) :
    (∀ i < points.length - 1, i + 1 < points.length) ∧
    (mkConstraints points).length = 4 * (points.length - 1) ∧
    (∀ c ∈ mkConstraints points, ∀ q ∈ c.sum,
      q.2.idx < 4 * (points.length - 1)) ∧
    (∀ i < points.length - 1, 4 * i + 3 < 4 * (points.length - 1)) := by
  refine ⟨fun i hi => by omega, mkConstraints_length points h, ?_,
    fun i hi => by omega⟩
  intro c hc q hq
  simp only [mkConstraints, List.mem_append, List.mem_flatMap,
    List.mem_range] at hc
  rcases hc with (⟨j, hj, hcj⟩ | ⟨j, hj, hcj⟩) | hce
  · simp only [pointConstraints, List.mem_cons, List.not_mem_nil,
      or_false] at hcj
    rcases hcj with rfl | rfl <;>
      · simp only [val0Constraint, val1Constraint] at hq
        fin_cases hq <;> simp only [Var.idx] <;> omega
  · simp only [contConstraints, List.mem_cons, List.not_mem_nil,
      or_false] at hcj
    rcases hcj with rfl | rfl <;>
      · simp only [d1Constraint, d2Constraint] at hq
        fin_cases hq <;> simp only [Var.idx] <;> omega
  · simp only [endConstraints, List.mem_cons, List.not_mem_nil,
      or_false] at hce
    rcases hce with rfl | rfl <;>
      · fin_cases hq <;> simp only [Var.idx] <;> omega

/-- Witness for C10 at a concrete input. -/
theorem polyline_in_bounds_witness :
    2 ≤ ([0, 0] : List ℚ).length ∧
    ((∀ i < ([0, 0] : List ℚ).length - 1, i + 1 < ([0, 0] : List ℚ).length) ∧
     (mkConstraints [0, 0]).length = 4 * (([0, 0] : List ℚ).length - 1) ∧
     (∀ c ∈ mkConstraints [0, 0], ∀ q ∈ c.sum,
       q.2.idx < 4 * (([0, 0] : List ℚ).length - 1)) ∧
     (∀ i < ([0, 0] : List ℚ).length - 1,
       4 * i + 3 < 4 * (([0, 0] : List ℚ).length - 1))) :=
  ⟨by simp, polyline_in_bounds [0, 0] (by simp)⟩

/-- C1: for every solution of the assembled system, segment `i`'s
polynomial evaluates at `t = 0` to `points[i]` and at `t = 1` to
`points[i+1]`. -/
theorem polyline_endpoint_interpolation (points : List ℚ) (x : ℕ → ℚ)
    (hlen : 2 ≤ points.length) (hx : SolvesSystem points x)
    (i : ℕ) (hi : i < points.length - 1) :
    ((polyline points x).getD i polyZero).get 0 = points.getD i 0 ∧
    ((polyline points x).getD i polyZero).get 1 = points.getD (i + 1) 0 := by
  have hpoly : (polyline points x).getD i polyZero =
      ⟨x (4 * i), x (4 * i + 1), x (4 * i + 2), x (4 * i + 3)⟩ := by
    rw [polyline, if_neg (by omega), getD_map_range _ _ _ hi]
  have h0 : val0Constraint points i ∈ mkConstraints points := by
    simp only [mkConstraints, List.mem_append, List.mem_flatMap, List.mem_range]
    exact Or.inl (Or.inl ⟨i, hi, by simp [pointConstraints]⟩)
  have h1 : val1Constraint points i ∈ mkConstraints points := by
    simp only [mkConstraints, List.mem_append, List.mem_flatMap, List.mem_range]
    exact Or.inl (Or.inl ⟨i, hi, by simp [pointConstraints]⟩)
  have e0 := hx _ h0
  have e1 := hx _ h1
  simp only [Constraint.holds, val0Constraint, val1Constraint, Var.idx,
    List.map_cons, List.map_nil, List.sum_cons, List.sum_nil] at e0 e1
  have c0 : i * 4 + 0 = 4 * i := by ring
  have c1 : i * 4 + 1 = 4 * i + 1 := by ring
  have c2 : i * 4 + 2 = 4 * i + 2 := by ring
  have c3 : i * 4 + 3 = 4 * i + 3 := by ring
  rw [c0] at e0
  rw [c0, c1, c2, c3] at e1
  rw [hpoly]
  unfold Poly.get
  constructor
  · linear_combination e0
  · linear_combination e1

lemma solves_zero_pair : SolvesSystem [0, 0] (fun _ => 0) := by
  intro c hc
  fin_cases hc <;>
    norm_num [Constraint.holds, Var.idx, val0Constraint, val1Constraint,
      d1Constraint, d2Constraint]

/-- Witness for C1 at a concrete input. -/
theorem polyline_endpoint_interpolation_witness :
    2 ≤ ([0, 0] : List ℚ).length ∧ SolvesSystem [0, 0] (fun _ => 0) ∧
    0 < ([0, 0] : List ℚ).length - 1 ∧
    (((polyline [0, 0] (fun _ => 0)).getD 0 polyZero).get 0 =
        ([0, 0] : List ℚ).getD 0 0 ∧
     ((polyline [0, 0] (fun _ => 0)).getD 0 polyZero).get 1 =
        ([0, 0] : List ℚ).getD (0 + 1) 0) :=
  ⟨by simp, solves_zero_pair, by simp,
   polyline_endpoint_interpolation [0, 0] (fun _ => 0) (by simp)
     solves_zero_pair 0 (by simp)⟩

/-- C6: for a non-empty list of `k` segment pairs, `samples` outputs
exactly `100 * k` points, and the point at position `100*s + i` is the
pair of the two polynomials of segment `s` evaluated at `i / 99`,
concatenated in segment order. -/
theorem samples_count_and_points (l : List (Poly × Poly))
    (out : List (ℚ × ℚ)) (hne : l ≠ []) :
    (samples l out).length = 100 * l.length ∧
    ∀ s i, s < l.length → i < 100 →
      (samples l out).getD (100 * s + i) (0, 0) =
        ((l.getD s (polyZero, polyZero)).1.get ((i : ℚ) / 99),
         (l.getD s (polyZero, polyZero)).2.get ((i : ℚ) / 99)) := by
  have hsamp : samples l out = l.flatMap fun p =>
      (List.range 100).map fun i : ℕ =>
        (p.1.get ((i : ℚ) / 99), p.2.get ((i : ℚ) / 99)) := by
    rw [samples, if_neg hne]
  have hblock : ∀ p : Poly × Poly, ((List.range 100).map fun i : ℕ =>
      (p.1.get ((i : ℚ) / 99), p.2.get ((i : ℚ) / 99))).length = 100 := by
    simp
  constructor
  · rw [hsamp, length_flatMap_const _ 100 hblock]
  · intro s i hs hi
    rw [hsamp,
      flatMap_getD_block _ 100 (0, 0) (polyZero, polyZero) hblock l s i hs hi,
      getD_map_range _ _ _ hi]

/-- Witness for C6 at a concrete input. -/
theorem samples_count_and_points_witness :
    ([(polyZero, polyZero)] : List (Poly × Poly)) ≠ [] ∧
    (samples [(polyZero, polyZero)] []).length =
      100 * ([(polyZero, polyZero)] : List (Poly × Poly)).length ∧
    (samples [(polyZero, polyZero)] []).getD (100 * 0 + 5) (0, 0) =
      ((([(polyZero, polyZero)] : List (Poly × Poly)).getD 0
          (polyZero, polyZero)).1.get (((5 : ℕ) : ℚ) / 99),
       (([(polyZero, polyZero)] : List (Poly × Poly)).getD 0
          (polyZero, polyZero)).2.get (((5 : ℕ) : ℚ) / 99)) :=
  ⟨by simp,
   (samples_count_and_points [(polyZero, polyZero)] [] (by simp)).1,
   (samples_count_and_points [(polyZero, polyZero)] [] (by simp)).2 0 5
     (by simp) (by omega)⟩

/-- The continuity the assembled constraints do enforce: the true first
and second derivatives of the cubic (`derivSpec`, `deriv2Spec`) agree
across every interior joint of any solution, which shows the source's
constraint construction matches the spec's intent and isolates the slip
to the `deriv`/`deriv2` formulas. -/
lemma derivSpec_continuous_at_joints (points : List ℚ) (x : ℕ → ℚ)
    (hlen : 2 ≤ points.length) (hx : SolvesSystem points x)
    (i : ℕ) (hi : i + 1 < points.length - 1) :
    Poly.derivSpec ((polyline points x).getD i polyZero) 1 =
      Poly.derivSpec ((polyline points x).getD (i + 1) polyZero) 0 ∧
    Poly.deriv2Spec ((polyline points x).getD i polyZero) 1 =
      Poly.deriv2Spec ((polyline points x).getD (i + 1) polyZero) 0 := by
  have hpi : (polyline points x).getD i polyZero =
      ⟨x (4 * i), x (4 * i + 1), x (4 * i + 2), x (4 * i + 3)⟩ := by
    rw [polyline, if_neg (by omega), getD_map_range _ _ _ (by omega)]
  have hpi1 : (polyline points x).getD (i + 1) polyZero =
      ⟨x (4 * (i + 1)), x (4 * (i + 1) + 1), x (4 * (i + 1) + 2),
       x (4 * (i + 1) + 3)⟩ := by
    rw [polyline, if_neg (by omega), getD_map_range _ _ _ (by omega)]
  have h1 : d1Constraint i ∈ mkConstraints points := by
    simp only [mkConstraints, List.mem_append, List.mem_flatMap, List.mem_range]
    exact Or.inl (Or.inr ⟨i, by omega, by simp [contConstraints]⟩)
  have h2 : d2Constraint i ∈ mkConstraints points := by
    simp only [mkConstraints, List.mem_append, List.mem_flatMap, List.mem_range]
    exact Or.inl (Or.inr ⟨i, by omega, by simp [contConstraints]⟩)
  have e1 := hx _ h1
  have e2 := hx _ h2
  simp only [Constraint.holds, d1Constraint, d2Constraint, Var.idx,
    List.map_cons, List.map_nil, List.sum_cons, List.sum_nil] at e1 e2
  have c1 : i * 4 + 1 = 4 * i + 1 := by ring
  have c2 : i * 4 + 2 = 4 * i + 2 := by ring
  have c3 : i * 4 + 3 = 4 * i + 3 := by ring
  have c4 : (i + 1) * 4 + 1 = 4 * (i + 1) + 1 := by ring
  have c5 : (i + 1) * 4 + 2 = 4 * (i + 1) + 2 := by ring
  rw [c1, c2, c3, c4] at e1
  rw [c2, c3, c5] at e2
  rw [hpi, hpi1]
  unfold Poly.derivSpec Poly.deriv2Spec
  constructor
  · linear_combination e1
  · linear_combination e2

/-- C7 counterexample: on `points = [0, 1, 2]` the constraint order the
source builds differs from the spec's grouped-by-type order: at index 1
the source has the value-at-`t=1` equation of segment 0 (four summands)
where the grouped order has the value-at-`t=0` equation of segment 1
(one summand). -/
theorem mkConstraints_not_grouped_by_type :
    mkConstraints [0, 1, 2] ≠ specOrderConstraints [0, 1, 2] := by
  intro h
  have e1 : ((mkConstraints [0, 1, 2]).getD 1 cZero).sum.length = 4 := rfl
  have e2 : ((specOrderConstraints [0, 1, 2]).getD 1 cZero).sum.length = 1 := rfl
  have h1 : ((mkConstraints [0, 1, 2]).getD 1 cZero).sum.length
      = ((specOrderConstraints [0, 1, 2]).getD 1 cZero).sum.length := by rw [h]
  rw [e1, e2] at h1
  exact absurd h1 (by omega)

/-- C7 amended: `polyline` emits, for each segment `i` in increasing
order, the value-at-`t=0` equation followed by the value-at-`t=1`
equation for that segment; then for each interior joint `i` in
increasing order, the first-derivative followed by the second-derivative
continuity equation; then the two end-condition equations.  Equations of
different types are interleaved per segment/joint, not grouped by
type. -/
theorem mkConstraints_emission_order (points : List ℚ)
    (h : 2 ≤ points.length) :
    (∀ i < points.length - 1,
      (mkConstraints points).getD (2 * i) cZero = val0Constraint points i ∧
      (mkConstraints points).getD (2 * i + 1) cZero = val1Constraint points i) ∧
    (∀ i < points.length - 1 - 1,
      (mkConstraints points).getD (2 * (points.length - 1) + 2 * i) cZero =
        d1Constraint i ∧
      (mkConstraints points).getD (2 * (points.length - 1) + 2 * i + 1) cZero =
        d2Constraint i) ∧
    (mkConstraints points).getD (4 * (points.length - 1) - 2) cZero =
      ⟨[(1, ⟨0, 1⟩)], 0⟩ ∧
    (mkConstraints points).getD (4 * (points.length - 1) - 1) cZero =
      ⟨[(1, ⟨points.length - 1 - 1, 1⟩), (2, ⟨points.length - 1 - 1, 2⟩),
        (3, ⟨points.length - 1 - 1, 3⟩)], 0⟩ := by
  set lines := points.length - 1 with hdl
  have hA : ((List.range lines).flatMap (pointConstraints points)).length
      = 2 * lines := by
    rw [length_flatMap_const (pointConstraints points) 2 (fun _ => rfl)]
    simp
  have hB : ((List.range (lines - 1)).flatMap contConstraints).length
      = 2 * (lines - 1) := by
    rw [length_flatMap_const contConstraints 2 (fun _ => rfl)]
    simp
  have hlines : 1 ≤ lines := by omega
  refine ⟨fun i hi => ⟨?_, ?_⟩, fun i hi => ⟨?_, ?_⟩, ?_, ?_⟩
  · rw [mkConstraints, ← hdl,
      List.getD_append _ _ _ _ (by rw [List.length_append, hA, hB]; omega),
      List.getD_append _ _ _ _ (by rw [hA]; omega)]
    have := flatMap_range_getD (pointConstraints points) 2 cZero
      (fun _ => rfl) lines i 0 hi (by omega)
    rw [Nat.add_zero] at this
    rw [this]
    rfl
  · rw [mkConstraints, ← hdl,
      List.getD_append _ _ _ _ (by rw [List.length_append, hA, hB]; omega),
      List.getD_append _ _ _ _ (by rw [hA]; omega)]
    rw [flatMap_range_getD (pointConstraints points) 2 cZero
      (fun _ => rfl) lines i 1 hi (by omega)]
    rfl
  · rw [mkConstraints, ← hdl,
      List.getD_append _ _ _ _ (by rw [List.length_append, hA, hB]; omega),
      List.getD_append_right _ _ _ _ (by rw [hA]; omega), hA]
    have hidx : 2 * lines + 2 * i - 2 * lines = 2 * i + 0 := by omega
    rw [hidx, flatMap_range_getD contConstraints 2 cZero
      (fun _ => rfl) (lines - 1) i 0 hi (by omega)]
    rfl
  · rw [mkConstraints, ← hdl,
      List.getD_append _ _ _ _ (by rw [List.length_append, hA, hB]; omega),
      List.getD_append_right _ _ _ _ (by rw [hA]; omega), hA]
    have hidx : 2 * lines + 2 * i + 1 - 2 * lines = 2 * i + 1 := by omega
    rw [hidx, flatMap_range_getD contConstraints 2 cZero
      (fun _ => rfl) (lines - 1) i 1 hi (by omega)]
    rfl
  · rw [mkConstraints, ← hdl,
      List.getD_append_right _ _ _ _ (by rw [List.length_append, hA, hB]; omega)]
    have hidx : 4 * lines - 2 -
        ((List.range lines).flatMap (pointConstraints points) ++
          (List.range (lines - 1)).flatMap contConstraints).length = 0 := by
      rw [List.length_append, hA, hB]; omega
    rw [hidx]
    rfl
  · rw [mkConstraints, ← hdl,
      List.getD_append_right _ _ _ _ (by rw [List.length_append, hA, hB]; omega)]
    have hidx : 4 * lines - 1 -
        ((List.range lines).flatMap (pointConstraints points) ++
          (List.range (lines - 1)).flatMap contConstraints).length = 1 := by
      rw [List.length_append, hA, hB]; omega
    rw [hidx]
    rfl

/-- Witness for C7's amended theorem at a concrete input. -/
theorem mkConstraints_emission_order_witness :
    2 ≤ ([0, 1, 2] : List ℚ).length ∧
    (mkConstraints [0, 1, 2]).getD (2 * 0 + 1) cZero =
      val1Constraint [0, 1, 2] 0 ∧
    (mkConstraints [0, 1, 2]).getD
        (2 * (([0, 1, 2] : List ℚ).length - 1) + 2 * 0) cZero =
      d1Constraint 0 ∧
    (mkConstraints [0, 1, 2]).getD
        (4 * (([0, 1, 2] : List ℚ).length - 1) - 2) cZero =
      ⟨[(1, ⟨0, 1⟩)], 0⟩ :=
  ⟨by simp,
   ((mkConstraints_emission_order [0, 1, 2] (by simp)).1 0 (by simp)).2,
   ((mkConstraints_emission_order [0, 1, 2] (by simp)).2.1 0 (by simp)).1,
   (mkConstraints_emission_order [0, 1, 2] (by simp)).2.2.1⟩

end CubicSpline
